import Mathlib

/-!
Shallow embedding of the chart-geometry core of the `inkscape-plot` repository.

The repository contains two generations of the data model:

* the `Range`/`Normalizer`/`Ticker`/`Formatter` model in `src/graph.py`
  (consumed by the legacy `src/renderer.py`), which is present in full and is
  embedded here directly from its source; and
* a newer `Interval`/`Scale` model (imported by `src/main.py`,
  `src/renderer/axis.py` and `src/renderer/plots.py`); the module defining
  `Interval`, `LinearScale`, `LogScale`, the new `Axis`, `Series` and `Graph`
  is not among the source files, so those few definitions are modelled from
  the specification (each such definition carries a doc comment starting with
  `Modelled from the spec:`).  The renderers in `src/renderer/` themselves are
  present and are embedded from their source.

Python floats are modelled as exact rationals (`ℚ`); `math.log` is modelled
by an abstract logarithm function where only control flow depends on it, and
by `Int.log`/`Int.clog` (the exact `⌊log_b ·⌋`/`⌈log_b ·⌉`) where the code
floors/ceils the float logarithm.  A Python function that can raise is
embedded as an `Option`-returning function (`none` = the exception).
-/

namespace InkscapePlot

/-- `Range` from `src/graph.py` (lines 6-21): a plain dataclass with fields
`min` and `max` and **no validation**; its docstring states that `min > max`
inverts the scale. -/
structure Range where
  min : ℚ
  max : ℚ

/-- `LinearNormalizer.normalize` from `src/graph.py` (lines 46-57).
Raises `ValueError` (here `none`) when `max == min`; otherwise clamps the
value into `[min(min,max), max(min,max)]` and returns
`(val - min) / (max - min)`. -/
def LinearNormalizer.normalize (data_range : Range) (value : ℚ) : Option ℚ :=
  if data_range.max = data_range.min then none
  else
    let lower_bound := min data_range.min data_range.max
    let upper_bound := max data_range.min data_range.max
    let val := max lower_bound (min value upper_bound)
    some ((val - data_range.min) / (data_range.max - data_range.min))

/-- `LogNormalizer.normalize` from `src/graph.py` (lines 60-78).
Raises (here `none`) when `min ≤ 0 ∨ max ≤ 0`, or when `max == min`;
otherwise clamps the value into the bounds and returns
`(log val - log min) / (log max - log min)`.  `lg` abstracts the source's
`math.log(·, base)`; every guard is independent of `lg`. -/
def LogNormalizer.normalize {K : Type} [LinearOrderedField K]
    (lg : ℚ → K) (data_range : Range) (value : ℚ) : Option K :=
  if data_range.min ≤ 0 ∨ data_range.max ≤ 0 then none
  else if data_range.max = data_range.min then none
  else
    let lower_bound := min data_range.min data_range.max
    let upper_bound := max data_range.min data_range.max
    let val := max lower_bound (min value upper_bound)
    some ((lg val - lg data_range.min) / (lg data_range.max - lg data_range.min))

/-- `StepTicker.get_ticks` from `src/graph.py` (lines 101-121), with
`step` and `offset` the constructor arguments.  The `while current <= upper`
loop emits `start + i*step` for `i = 0, 1, ...` while the value stays
`≤ upper`; in exact arithmetic that is the first
`⌊(upper - start)/step⌋ + 1` members (none when `start > upper`).
Ticks are represented by their `value` field (`Tick` is a one-field
wrapper in the source). -/
def StepTicker.get_ticks (step offset : ℚ) (data_range : Range) : List ℚ :=
  if step ≤ 0 then []
  else
    let lower := min data_range.min data_range.max
    let upper := max data_range.min data_range.max
    let start0 := lower + offset
    let start :=
      if start0 < lower then start0 + (⌈(lower - start0) / step⌉ : ℤ) * step
      else start0
    if upper < start then []
    else (List.range ((⌊(upper - start) / step⌋).toNat + 1)).map
      (fun (i : ℕ) => start + (i : ℚ) * step)

/-- `LogMainTicker.get_ticks` from `src/graph.py` (lines 130-147).
`exp_min = ⌊log_base lower⌋` and `exp_max = ⌈log_base upper⌉` are modelled
exactly by `Int.log`/`Int.clog`; the loop `for exp in range(exp_min,
exp_max + 1)` keeps `base**exp` when it lies in `[lower, upper]`.
The base is a natural number; the renderer always uses the default `10`. -/
def LogMainTicker.get_ticks (base : ℕ) (data_range : Range) : List ℚ :=
  if data_range.min ≤ 0 ∨ data_range.max ≤ 0 then []
  else
    let lower := min data_range.min data_range.max
    let upper := max data_range.min data_range.max
    let exp_min := Int.log base lower
    let exp_max := Int.clog base upper
    (((List.range (exp_max + 1 - exp_min).toNat).map
        (fun (i : ℕ) => (base : ℚ) ^ (exp_min + (i : ℤ)))).filter
      (fun value => decide (lower ≤ value ∧ value ≤ upper)))

/-- `LogSubTicker.get_ticks` from `src/graph.py` (lines 156-175).
For each exponent in `range(exp_min, exp_max + 1)` it emits
`base**exp * i` for `i in range(2, base)`, keeping values in
`[lower, upper]` (the source filters inside the loop; filtering the
concatenation preserves the emission order). -/
def LogSubTicker.get_ticks (base : ℕ) (data_range : Range) : List ℚ :=
  if data_range.min ≤ 0 ∨ data_range.max ≤ 0 then []
  else
    let lower := min data_range.min data_range.max
    let upper := max data_range.min data_range.max
    let exp_min := Int.log base lower
    let exp_max := Int.clog base upper
    (((List.range (exp_max + 1 - exp_min).toNat).flatMap
        (fun (e : ℕ) => (List.range (base - 2)).map
          (fun (i : ℕ) => (base : ℚ) ^ (exp_min + (e : ℤ)) * ((i : ℚ) + 2)))).filter
      (fun value => decide (lower ≤ value ∧ value ≤ upper)))

/-- Round-half-to-even of an exact rational to an integer; the rounding mode
used by CPython's fixed-point float formatting (`"{:.0f}".format(2.5)` is
`"2"`). -/
def roundHalfEven (q : ℚ) : ℤ :=
  if q - ⌊q⌋ < 1 / 2 then ⌊q⌋
  else if 1 / 2 < q - ⌊q⌋ then ⌊q⌋ + 1
  else if ⌊q⌋ % 2 = 0 then ⌊q⌋ else ⌊q⌋ + 1

def strZero : String := "0"

def strMinus : String := "-"

def strDot : String := "."

def strTenCaret : String := "10^"

def strTimesTenCaret : String := "×10^"

def zeroChar : Char := '0'

/-- Zero-padded `p`-digit rendering of the fractional part `n ∈ [0, 10^p)`. -/
def padZeros (p : ℕ) (n : ℤ) : String :=
  let s := toString n.toNat
  String.mk (List.replicate (p - s.length) zeroChar) ++ s

/-- Models Python's fixed-point formatting `"{:.pf}".format(q)` in exact
arithmetic: round-half-to-even at `p` decimal digits, with the sign taken
from the value. -/
def formatFixed (p : ℕ) (q : ℚ) : String :=
  let n := roundHalfEven (|q| * 10 ^ p)
  let digits :=
    if p = 0 then toString n
    else toString (n / 10 ^ p) ++ strDot ++ padZeros p (n % 10 ^ p)
  if q < 0 then strMinus ++ digits else digits

/-- `ScientificFormatter.format` from `src/graph.py` (lines 201-214); the
same code appears verbatim as `ScientificFormatter.format` in
`src/renderer/axis.py` (lines 26-39).  `exp = math.floor(math.log10(abs(v)))`
is modelled exactly by `Int.log 10 |v|`. -/
def ScientificFormatter.format (precision : ℕ) (value : ℚ) : String :=
  if value = 0 then strZero
  else
    let exp := Int.log 10 |value|
    let mantissa := value / 10 ^ exp
    if precision = 0 ∧ mantissa = 1 then strTenCaret ++ toString exp
    else formatFixed precision mantissa ++ strTimesTenCaret ++ toString exp

/-- Modelled from the spec: the new-model `Interval` that `src/main.py`
imports from the missing new `graph` module — `{min: float, max: float}`
with invariant `min <= max`, construction failing otherwise (spec §3). -/
structure Interval where
  min : ℚ
  max : ℚ

/-- Modelled from the spec: checked `Interval` construction — fails
(`none`) when `min > max` (spec §3, §4.5 failure semantics). -/
def Interval.make (lo hi : ℚ) : Option Interval :=
  if hi < lo then none else some ⟨lo, hi⟩

/-- Modelled from the spec: `Interval.contains(v) = min <= v <= max`
(spec §3), used by `PlotsRenderer.render` in `src/renderer/plots.py`. -/
def Interval.contains (i : Interval) (v : ℚ) : Bool :=
  decide (i.min ≤ v ∧ v ≤ i.max)

/-- Modelled from the spec: `LinearScale.normalize(value, interval) =
(value - interval.min) / interval.length`, returning `0.0` when
`length == 0`, with no clamping (spec §4.1). -/
def LinearScale.normalize (interval : Interval) (value : ℚ) : ℚ :=
  if interval.max - interval.min = 0 then 0
  else (value - interval.min) / (interval.max - interval.min)

/-- Modelled from the spec: the new-model `Axis` owns an `Interval` and a
`Scale`; `normalize(value) = scale.normalize(value, interval)` (spec §3).
The scale strategy object is modelled by the normalization function it
contributes. -/
structure Axis where
  interval : Interval
  scale : Interval → ℚ → ℚ

/-- Modelled from the spec: `Axis.normalize` dispatches to the owned scale
over the owned interval (spec §3). -/
def Axis.normalize (a : Axis) (value : ℚ) : ℚ :=
  a.scale a.interval value

/-- `GraphRoot.map_x` from `src/renderer/renderer.py` (lines 30-31). -/
def GraphRoot.map_x (plot_area_width normalized_x : ℚ) : ℚ :=
  normalized_x * plot_area_width

/-- `GraphRoot.map_y` from `src/renderer/renderer.py` (lines 33-34):
the y direction is inverted (`normalized_y = 1` maps to the top edge). -/
def GraphRoot.map_y (plot_area_height normalized_y : ℚ) : ℚ :=
  (1 - normalized_y) * plot_area_height

/-- `PlotsRenderer.render` from `src/renderer/plots.py` (lines 167-192),
modelled as the list of marker centres it emits: a point is skipped
(`continue`) when its `x` or `y` value is outside the corresponding axis
interval; otherwise exactly one marker is generated, centred at the mapped
coordinates. -/
def PlotsRenderer.render (x_axis y_axis : Axis) (points : List (ℚ × ℚ))
    (plot_area_width plot_area_height : ℚ) : List (ℚ × ℚ) :=
  points.filterMap (fun p =>
    if x_axis.interval.contains p.1 && y_axis.interval.contains p.2 then
      some (GraphRoot.map_x plot_area_width (x_axis.normalize p.1),
            GraphRoot.map_y plot_area_height (y_axis.normalize p.2))
    else none)

/-- Sequential effectful traversal of a per-point loop in which the first
raised exception aborts the remainder. -/
def optionMapList {α β : Type} (f : α → Option β) : List α → Option (List β)
  | [] => some []
  | a :: as => do
    let b ← f a
    let bs ← optionMapList f as
    pure (b :: bs)

/-- `InkscapeRenderer._render_plot` from `src/renderer.py` (lines 392-416),
modelled as the list of marker centres it draws: every point of the series
is normalized through the axis `transform` (which may raise) and mapped to
`(norm_x * width, height - norm_y * height)`; there is no range check, so no
point is ever skipped.  `transform_x`/`transform_y` are the two axes'
`Axis.transform` methods (old model: `normalizer.normalize(range, value)`). -/
def InkscapeRenderer.render_plot (transform_x transform_y : ℚ → Option ℚ)
    (points : List (ℚ × ℚ)) (width height : ℚ) : Option (List (ℚ × ℚ)) :=
  optionMapList (fun p => do
    let norm_x ← transform_x p.1
    let norm_y ← transform_y p.2
    pure (norm_x * width, height - norm_y * height)) points

/-- The bounds logic of `RenderGraphExtension._build_axis` from
`src/main.py` (lines 487-506): `inverted = min_val > max_val`; if inverted
the bounds are swapped, and the (spec-modelled) `Interval` is constructed
from the resulting pair. -/
def RenderGraphExtension.build_axis_interval (min_val max_val : ℚ) : Option Interval :=
  if max_val < min_val then Interval.make max_val min_val
  else Interval.make min_val max_val

/-! ## Helper lemmas -/

/-- Unfolded form of `LinearNormalizer.normalize` when the bounds differ:
the value is clamped into `[min(min,max), max(min,max)]` first. -/
lemma LinearNormalizer.normalize_eq (r : Range) (v : ℚ) (h : r.max ≠ r.min) :
    LinearNormalizer.normalize r v =
      some ((max (min r.min r.max) (min v (max r.min r.max)) - r.min) /
        (r.max - r.min)) := by
  simp [LinearNormalizer.normalize, h]

/-- The clamped linear normalization result always lies in `[0, 1]`. -/
lemma lin_clamp_unit (r : Range) (v : ℚ) (h : r.min ≠ r.max) :
    0 ≤ (max (min r.min r.max) (min v (max r.min r.max)) - r.min) / (r.max - r.min)
    ∧ (max (min r.min r.max) (min v (max r.min r.max)) - r.min) / (r.max - r.min) ≤ 1 := by
  rcases lt_or_gt_of_ne h with hlt | hgt
  · have hmin : min r.min r.max = r.min := min_eq_left hlt.le
    have hmax : max r.min r.max = r.max := max_eq_right hlt.le
    rw [hmin, hmax]
    have hval₁ : r.min ≤ max r.min (min v r.max) := le_max_left _ _
    have hval₂ : max r.min (min v r.max) ≤ r.max :=
      max_le hlt.le (min_le_right _ _)
    have hden : 0 < r.max - r.min := by linarith
    exact ⟨div_nonneg (by linarith) hden.le,
      (div_le_one hden).mpr (by linarith)⟩
  · have hmin : min r.min r.max = r.max := min_eq_right hgt.le
    have hmax : max r.min r.max = r.min := max_eq_left hgt.le
    rw [hmin, hmax]
    have hval₁ : r.max ≤ max r.max (min v r.min) := le_max_left _ _
    have hval₂ : max r.max (min v r.min) ≤ r.min :=
      max_le hgt.le (min_le_right _ _)
    have hden : 0 < r.min - r.max := by linarith
    have hrw : (max r.max (min v r.min) - r.min) / (r.max - r.min)
        = (r.min - max r.max (min v r.min)) / (r.min - r.max) := by
      rw [← neg_div_neg_eq]; ring_nf
    rw [hrw]
    exact ⟨div_nonneg (by linarith) hden.le,
      (div_le_one hden).mpr (by linarith)⟩

/-- An arithmetic progression with positive step, read off `List.range`, is
strictly ascending. -/
lemma map_range_add_sorted (start step : ℚ) (hs : 0 < step) (n : ℕ) :
    ((List.range n).map (fun (i : ℕ) => start + (i : ℚ) * step)).Pairwise (· < ·) := by
  refine List.pairwise_map.mpr ((List.pairwise_lt_range n).imp ?_)
  intro a b hab
  have hq : (a : ℚ) < (b : ℚ) := by exact_mod_cast hab
  have := mul_lt_mul_of_pos_right hq hs
  linarith

/-- Every member of the emitted arithmetic progression lies between `lower`
and `upper` when `lower ≤ start ≤ upper`. -/
lemma map_range_add_mem_bounds (start step lower upper : ℚ) (hs : 0 < step)
    (hls : lower ≤ start) (hsu : start ≤ upper) :
    ∀ x ∈ (List.range ((⌊(upper - start) / step⌋).toNat + 1)).map
        (fun (i : ℕ) => start + (i : ℚ) * step),
      lower ≤ x ∧ x ≤ upper := by
  intro x hx
  obtain ⟨i, hi, rfl⟩ := List.mem_map.mp hx
  have hi' : i < (⌊(upper - start) / step⌋).toNat + 1 := List.mem_range.mp hi
  constructor
  · have : (0 : ℚ) ≤ (i : ℚ) * step := mul_nonneg (by positivity) hs.le
    linarith
  · have hfl : (0 : ℤ) ≤ ⌊(upper - start) / step⌋ :=
      Int.floor_nonneg.mpr (div_nonneg (by linarith) hs.le)
    have h2 : (i : ℤ) ≤ ⌊(upper - start) / step⌋ := by omega
    have h3 : ((i : ℤ) : ℚ) ≤ (upper - start) / step := Int.le_floor.mp h2
    have h4 : (i : ℚ) * step ≤ upper - start := (le_div_iff₀ hs).mp (by exact_mod_cast h3)
    linarith

/-- The adjusted start position of `StepTicker.get_ticks` is never below
`lower`: when the raw start `lower + offset` is below `lower`, the code
advances it by `ceil((lower - start)/step)` whole steps. -/
lemma step_start_ge (step offset lower : ℚ) (hs : 0 < step) :
    lower ≤ (if lower + offset < lower then
        lower + offset + (⌈(lower - (lower + offset)) / step⌉ : ℤ) * step
      else lower + offset) := by
  by_cases hc : lower + offset < lower
  · rw [if_pos hc]
    have h1 : (lower - (lower + offset)) / step
        ≤ ((⌈(lower - (lower + offset)) / step⌉ : ℤ) : ℚ) := Int.le_ceil _
    have h2 : lower - (lower + offset)
        ≤ ((⌈(lower - (lower + offset)) / step⌉ : ℤ) : ℚ) * step :=
      (div_le_iff₀ hs).mp h1
    linarith
  · rw [if_neg hc]
    push_neg at hc
    exact hc

/-- Sortedness and range-membership of the loop part of
`StepTicker.get_ticks`, generic in the adjusted start position. -/
lemma step_core (step start lower upper : ℚ) (hs : 0 < step) (hls : lower ≤ start) :
    (if upper < start then ([] : List ℚ)
      else (List.range ((⌊(upper - start) / step⌋).toNat + 1)).map
        (fun (i : ℕ) => start + (i : ℚ) * step)).Pairwise (· < ·)
    ∧ ∀ x ∈ (if upper < start then ([] : List ℚ)
      else (List.range ((⌊(upper - start) / step⌋).toNat + 1)).map
        (fun (i : ℕ) => start + (i : ℚ) * step)),
      lower ≤ x ∧ x ≤ upper := by
  by_cases hus : upper < start
  · rw [if_pos hus]
    exact ⟨List.Pairwise.nil, by intro x hx; simp at hx⟩
  · rw [if_neg hus]
    push_neg at hus
    exact ⟨map_range_add_sorted _ _ hs _,
      map_range_add_mem_bounds _ _ _ _ hs hls hus⟩

/-- `StepTicker.get_ticks` with positive step is strictly ascending and
stays within `[min(min,max), max(min,max)]`. -/
lemma step_get_ticks_sorted_mem (step offset : ℚ) (r : Range) (hs : 0 < step) :
    (StepTicker.get_ticks step offset r).Pairwise (· < ·)
    ∧ ∀ x ∈ StepTicker.get_ticks step offset r,
        min r.min r.max ≤ x ∧ x ≤ max r.min r.max := by
  simp only [StepTicker.get_ticks]
  rw [if_neg (not_le.mpr hs)]
  exact step_core step _ _ _ hs (step_start_ge step offset (min r.min r.max) hs)

/-- Membership in a bounds filter yields the bounds. -/
lemma mem_of_mem_filter_bounds {l : List ℚ} {lo hi x : ℚ}
    (hx : x ∈ l.filter (fun value => decide (lo ≤ value ∧ value ≤ hi))) :
    lo ≤ x ∧ x ≤ hi := by
  have h := (List.mem_filter.mp hx).2
  simpa using h

/-- Powers of a base `≥ 2` along consecutive integer exponents are strictly
ascending. -/
lemma map_zpow_sorted (b : ℕ) (hb : 2 ≤ b) (E : ℤ) (K : ℕ) :
    ((List.range K).map (fun (i : ℕ) => (b : ℚ) ^ (E + (i : ℤ)))).Pairwise (· < ·) := by
  have hb1 : (1 : ℚ) < (b : ℚ) := by exact_mod_cast hb
  refine List.pairwise_map.mpr ((List.pairwise_lt_range K).imp ?_)
  intro a c hac
  refine zpow_lt_zpow_right₀ hb1 (add_lt_add_left ?_ E)
  exact_mod_cast hac

/-- The nested sub-tick emission `base^exp * i` (for `i in 2..base-1`,
decades ascending) is strictly ascending across the whole flattened list. -/
lemma flatMap_zpow_sorted (b : ℕ) (hb : 2 ≤ b) (E : ℤ) (K : ℕ) :
    ((List.range K).flatMap (fun (e : ℕ) => (List.range (b - 2)).map
      (fun (i : ℕ) => (b : ℚ) ^ (E + (e : ℤ)) * ((i : ℚ) + 2)))).Pairwise (· < ·) := by
  have hb1 : (1 : ℚ) < (b : ℚ) := by exact_mod_cast hb
  have hbpos : (0 : ℚ) < (b : ℚ) := by linarith
  rw [List.pairwise_flatMap]
  constructor
  · intro e he
    refine List.pairwise_map.mpr ((List.pairwise_lt_range _).imp ?_)
    intro a c hac
    have hq : (a : ℚ) + 2 < (c : ℚ) + 2 := by
      have : (a : ℚ) < (c : ℚ) := by exact_mod_cast hac
      linarith
    exact mul_lt_mul_of_pos_left hq (zpow_pos hbpos _)
  · refine (List.pairwise_lt_range K).imp ?_
    intro e₁ e₂ he x hx y hy
    obtain ⟨i, hi, rfl⟩ := List.mem_map.mp hx
    obtain ⟨j, hj, rfl⟩ := List.mem_map.mp hy
    have hi2 : (i : ℚ) + 2 < (b : ℚ) := by
      have h2 : i + 2 < b := by
        have := List.mem_range.mp hi
        omega
      exact_mod_cast h2
    have hx1 : (b : ℚ) ^ (E + (e₁ : ℤ)) * ((i : ℚ) + 2)
        < (b : ℚ) ^ (E + (e₁ : ℤ) + 1) := by
      rw [zpow_add_one₀ (ne_of_gt hbpos)]
      exact mul_lt_mul_of_pos_left hi2 (zpow_pos hbpos _)
    have hx2 : (b : ℚ) ^ (E + (e₁ : ℤ) + 1) ≤ (b : ℚ) ^ (E + (e₂ : ℤ)) := by
      refine zpow_le_zpow_right₀ hb1.le ?_
      have : (e₁ : ℤ) < (e₂ : ℤ) := by exact_mod_cast he
      omega
    have hy1 : (b : ℚ) ^ (E + (e₂ : ℤ))
        ≤ (b : ℚ) ^ (E + (e₂ : ℤ)) * ((j : ℚ) + 2) := by
      have h2 : (1 : ℚ) ≤ (j : ℚ) + 2 := by
        have : (0 : ℚ) ≤ (j : ℚ) := by positivity
        linarith
      exact le_mul_of_one_le_right (zpow_pos hbpos _).le h2
    calc (b : ℚ) ^ (E + (e₁ : ℤ)) * ((i : ℚ) + 2)
        < (b : ℚ) ^ (E + (e₁ : ℤ) + 1) := hx1
      _ ≤ (b : ℚ) ^ (E + (e₂ : ℤ)) := hx2
      _ ≤ (b : ℚ) ^ (E + (e₂ : ℤ)) * ((j : ℚ) + 2) := hy1

/-- A `filterMap` whose function is `if p a then some (f a) else none` is a
filter followed by a map. -/
lemma filterMap_if_eq_map_filter {α β : Type} (p : α → Bool) (f : α → β)
    (l : List α) :
    l.filterMap (fun a => if p a then some (f a) else none)
      = (l.filter p).map f := by
  induction l with
  | nil => rfl
  | cons a l ih =>
    cases hp : p a with
    | true => simp [List.filterMap_cons, List.filter_cons, hp, ih]
    | false => simp [List.filterMap_cons, List.filter_cons, hp, ih]

/-- A successful `optionMapList` produces exactly one output per input. -/
lemma optionMapList_length {α β : Type} (f : α → Option β) :
    ∀ (l : List α) (ms : List β), optionMapList f l = some ms
      → ms.length = l.length := by
  intro l
  induction l with
  | nil =>
    intro ms h
    simp only [optionMapList, Option.some.injEq] at h
    rw [← h]
    rfl
  | cons a l ih =>
    intro ms h
    simp only [optionMapList, Option.bind_eq_bind] at h
    cases hfa : f a with
    | none => rw [hfa] at h; simp at h
    | some b =>
      rw [hfa] at h
      cases hrec : optionMapList f l with
      | none => rw [hrec] at h; simp at h
      | some bs =>
        rw [hrec] at h
        simp only [Option.some_bind, Option.pure_def, Option.some.injEq] at h
        rw [← h]
        simp [ih bs hrec]

/-! ## Claims -/

/-- C1 counterexample: a `Range` with `min > max` is constructed without any
validation error, and the old-model pipeline renders with it —
`LinearNormalizer.normalize` on `Range(5, 1)` succeeds and returns `1/2`
for the value `3` (the documented inverted-scale behaviour), so nothing
fails at construction time. -/
theorem c1_range_inverted_constructs_and_renders :
    (Range.mk 5 1).min = 5 ∧ (Range.mk 5 1).max = 1
    ∧ LinearNormalizer.normalize ⟨5, 1⟩ 3 = some (1/2) := by
  refine ⟨rfl, rfl, ?_⟩
  norm_num [LinearNormalizer.normalize]

/-- C1 (amended): the old-model `Range` performs no construction-time
validation — `min > max` is permitted and documented as inverting the scale,
and normalization over such a range succeeds; the (spec-modelled) new-model
`Interval` does validate `min ≤ max` at construction, and
`RenderGraphExtension._build_axis` swaps inverted bounds before constructing
it, so every `Interval` it builds satisfies the invariant. -/
theorem c1_interval_validated_range_not (a b v : ℚ) :
    (∃ i : Interval, RenderGraphExtension.build_axis_interval a b = some i
        ∧ i.min ≤ i.max)
    ∧ (a ≤ b → Interval.make a b = some ⟨a, b⟩)
    ∧ (b < a → Interval.make a b = none)
    ∧ (a ≠ b → ∃ q, LinearNormalizer.normalize ⟨a, b⟩ v = some q) := by
  refine ⟨?_, ?_, ?_, ?_⟩
  · by_cases hba : b < a
    · refine ⟨⟨b, a⟩, ?_, hba.le⟩
      simp [RenderGraphExtension.build_axis_interval, Interval.make, hba,
        not_lt.mpr hba.le]
    · push_neg at hba
      refine ⟨⟨a, b⟩, ?_, hba⟩
      simp [RenderGraphExtension.build_axis_interval, Interval.make,
        not_lt.mpr hba]
  · intro hab
    simp [Interval.make, not_lt.mpr hab]
  · intro hba
    simp [Interval.make, hba]
  · intro hab
    exact ⟨_, LinearNormalizer.normalize_eq ⟨a, b⟩ v (by simpa using (Ne.symm hab))⟩

/-- C1 witness: the amended statement instantiated at `a = 5`, `b = 1`,
`v = 3`. -/
theorem c1_witness :
    (∃ i : Interval, RenderGraphExtension.build_axis_interval 5 1 = some i
        ∧ i.min ≤ i.max)
    ∧ ((5:ℚ) ≤ 1 → Interval.make 5 1 = some ⟨5, 1⟩)
    ∧ ((1:ℚ) < 5 → Interval.make 5 1 = none)
    ∧ ((5:ℚ) ≠ 1 → ∃ q, LinearNormalizer.normalize ⟨5, 1⟩ 3 = some q) :=
  c1_interval_validated_range_not 5 1 3

/-- C2 counterexample: `LinearNormalizer.normalize` clamps — on the range
`[0, 10]` the out-of-range value `20` normalizes to `1`, not to the
un-clamped `(20 - 0) / (10 - 0) = 2` claimed by the spec. -/
theorem c2_out_of_range_is_clamped :
    LinearNormalizer.normalize ⟨0, 10⟩ 20 = some 1
    ∧ ((20:ℚ) - 0) / (10 - 0) = 2
    ∧ (1:ℚ) ≠ 2 := by
  refine ⟨by norm_num [LinearNormalizer.normalize], by norm_num, by norm_num⟩

/-- C2 (amended): for every range with `min < max`, out-of-range values are
clamped before normalizing — a value below `min` normalizes to `0`, a value
above `max` normalizes to `1`, and every result lies in `[0, 1]`. -/
theorem c2_linear_clamps_out_of_range (r : Range) (v : ℚ) (h : r.min < r.max) :
    (v < r.min → LinearNormalizer.normalize r v = some 0)
    ∧ (r.max < v → LinearNormalizer.normalize r v = some 1)
    ∧ ∀ q, LinearNormalizer.normalize r v = some q → 0 ≤ q ∧ q ≤ 1 := by
  have hne : r.max ≠ r.min := (ne_of_lt h).symm
  have hmin : min r.min r.max = r.min := min_eq_left h.le
  have hmax : max r.min r.max = r.max := max_eq_right h.le
  refine ⟨?_, ?_, ?_⟩
  · intro hv
    rw [LinearNormalizer.normalize_eq r v hne, hmin, hmax]
    have h1 : min v r.max = v := min_eq_left (by linarith)
    rw [h1, max_eq_left (by linarith)]
    simp
  · intro hv
    rw [LinearNormalizer.normalize_eq r v hne, hmin, hmax]
    have h1 : min v r.max = r.max := min_eq_right (by linarith)
    rw [h1, max_eq_right h.le]
    rw [div_self (by linarith : r.max - r.min ≠ 0)]
  · intro q hq
    rw [LinearNormalizer.normalize_eq r v hne] at hq
    obtain rfl : _ = q := Option.some_injective _ hq
    exact lin_clamp_unit r v h.ne

/-- C2 witness: the amended statement instantiated at the range `[0, 10]`
and the value `20`. -/
theorem c2_witness :
    ((20:ℚ) < 0 → LinearNormalizer.normalize ⟨0, 10⟩ 20 = some 0)
    ∧ ((10:ℚ) < 20 → LinearNormalizer.normalize ⟨0, 10⟩ 20 = some 1)
    ∧ ∀ q, LinearNormalizer.normalize ⟨0, 10⟩ 20 = some q → 0 ≤ q ∧ q ≤ 1 :=
  c2_linear_clamps_out_of_range ⟨0, 10⟩ 20 (by norm_num)

/-- C3 counterexample: on the degenerate range `[5, 5]` the old-model
`LinearNormalizer.normalize` raises `ValueError` (modelled `none`) instead of
returning the claimed `0.0`. -/
theorem c3_degenerate_raises_not_zero :
    LinearNormalizer.normalize ⟨5, 5⟩ 3 = none
    ∧ LinearNormalizer.normalize ⟨5, 5⟩ 3 ≠ some 0 := by
  refine ⟨by norm_num [LinearNormalizer.normalize], by simp [LinearNormalizer.normalize]⟩

/-- C3 (amended): for every degenerate range (`min == max`) and every value,
`LinearNormalizer.normalize` raises a `ValueError` (modelled `none`) rather
than returning `0.0`; the `0.0` fallback belongs to the spec-modelled
new-model `LinearScale.normalize`, which does return `0` on a degenerate
interval. -/
theorem c3_degenerate_linear_raises (r : Range) (v : ℚ) (h : r.min = r.max) :
    LinearNormalizer.normalize r v = none
    ∧ ∀ i : Interval, i.min = i.max → LinearScale.normalize i v = 0 := by
  refine ⟨by simp [LinearNormalizer.normalize, h.symm], ?_⟩
  intro i hi
  simp [LinearScale.normalize, hi]

/-- C3 witness: the amended statement instantiated at the degenerate range
`[5, 5]` and the value `3`. -/
theorem c3_witness :
    LinearNormalizer.normalize ⟨5, 5⟩ 3 = none
    ∧ ∀ i : Interval, i.min = i.max → LinearScale.normalize i 3 = 0 :=
  c3_degenerate_linear_raises ⟨5, 5⟩ 3 rfl

/-- C4 counterexample: with positive bounds `[1, 100]`, the non-positive
value `-5` does not make `LogNormalizer.normalize` fail — the value is
clamped to the lower bound `1` first, and the call returns `0`
(`(log 1 - log 1) / (log 100 - log 1)`). -/
theorem c4_nonpositive_value_is_clamped :
    LogNormalizer.normalize (fun q : ℚ => Real.logb 10 (q : ℝ)) ⟨1, 100⟩ (-5) = some 0
    ∧ (-5:ℚ) ≤ 0 := by
  constructor
  · have hval : max (min (1:ℚ) 100) (min (-5) (max (1:ℚ) 100)) = 1 := by norm_num
    simp only [LogNormalizer.normalize]
    rw [if_neg (by norm_num), if_neg (by norm_num)]
    rw [hval]
    simp
  · norm_num

/-- C4 (amended): `LogNormalizer.normalize` fails exactly when
`min ≤ 0 ∨ max ≤ 0 ∨ max == min`; when the bounds are positive and distinct,
a value `≤ min(min, max)` — in particular any non-positive value — is clamped
to the lower bound and normalization succeeds. -/
theorem c4_log_fails_only_on_bad_bounds {K : Type} [LinearOrderedField K]
    (lg : ℚ → K) (r : Range) (v : ℚ) :
    (LogNormalizer.normalize lg r v = none
      ↔ (r.min ≤ 0 ∨ r.max ≤ 0 ∨ r.max = r.min))
    ∧ (0 < r.min → 0 < r.max → r.max ≠ r.min → v ≤ min r.min r.max →
        LogNormalizer.normalize lg r v =
          some ((lg (min r.min r.max) - lg r.min) / (lg r.max - lg r.min))) := by
  constructor
  · constructor
    · intro hnone
      by_contra hc
      push_neg at hc
      obtain ⟨h1, h2, h3⟩ := hc
      simp [LogNormalizer.normalize, not_le.mpr h1, not_le.mpr h2, h3] at hnone
    · intro hcase
      rcases hcase with h | h | h
      · simp [LogNormalizer.normalize, h]
      · simp [LogNormalizer.normalize, h]
      · by_cases hb : r.min ≤ 0 ∨ r.max ≤ 0
        · simp [LogNormalizer.normalize, hb]
        · simp [LogNormalizer.normalize, hb, h]
  · intro h1 h2 h3 hv
    have hval : max (min r.min r.max) (min v (max r.min r.max))
        = min r.min r.max := by
      have hmv : min v (max r.min r.max) = v :=
        min_eq_left (le_trans hv (le_trans (min_le_left _ _) (le_max_left _ _)))
      rw [hmv]
      exact max_eq_left hv
    simp only [LogNormalizer.normalize]
    rw [if_neg ?_, if_neg h3, hval]
    push_neg
    exact ⟨h1, h2⟩

/-- C4 witness: the amended statement instantiated at `lg = log₁₀` (as a
real-valued function), the range `[1, 100]` and the value `-5`. -/
theorem c4_witness :
    (LogNormalizer.normalize (fun q : ℚ => Real.logb 10 (q : ℝ)) ⟨1, 100⟩ (-5) = none
      ↔ ((1:ℚ) ≤ 0 ∨ (100:ℚ) ≤ 0 ∨ (100:ℚ) = 1))
    ∧ ((0:ℚ) < 1 → (0:ℚ) < 100 → (100:ℚ) ≠ 1 → (-5:ℚ) ≤ min (1:ℚ) 100 →
        LogNormalizer.normalize (fun q : ℚ => Real.logb 10 (q : ℝ)) ⟨1, 100⟩ (-5) =
          some ((Real.logb 10 ((min (1:ℚ) 100 : ℚ) : ℝ) - Real.logb 10 ((1:ℚ) : ℝ)) /
            (Real.logb 10 ((100:ℚ) : ℝ) - Real.logb 10 ((1:ℚ) : ℝ)))) :=
  c4_log_fails_only_on_bad_bounds (fun q : ℚ => Real.logb 10 (q : ℝ)) ⟨1, 100⟩ (-5)

/-- C5 counterexample: on the interval `[3, 47]`, `StepTicker(step=10,
offset=5)` starts at `lower + offset = 3 + 5 = 8`; but `8` is not the
smallest member of the arithmetic sequence `{5 + n*10}` that is `≥ 3` — the
member `5` (at `n = 0`) is `≥ 3` and smaller than `8`, so the first tick is
not the value the claim prescribes. -/
theorem c5_first_tick_not_smallest_member :
    (StepTicker.get_ticks 10 5 ⟨3, 47⟩).head? = some 8
    ∧ (5:ℚ) = 5 + ((0:ℤ):ℚ) * 10 ∧ (3:ℚ) ≤ 5 ∧ (5:ℚ) < 8 := by
  refine ⟨?_, by norm_num, by norm_num, by norm_num⟩
  have h1 : ⌊((47:ℚ) - 8) / 10⌋ = 3 := by norm_num [Int.floor_eq_iff]
  have h2 : ⌊(39:ℚ) / 10⌋ = 3 := by norm_num [Int.floor_eq_iff]
  have h3 : StepTicker.get_ticks 10 5 ⟨3, 47⟩ = [8, 18, 28, 38] := by
    norm_num [StepTicker.get_ticks, h1, h2, List.range_succ,
      show Int.toNat 3 = 3 from rfl]
  rw [h3]
  rfl

/-- C5 (amended): the first tick of `StepTicker.get_ticks` is in general the
raw start `lower + offset`, not the smallest sequence member `≥ min` (the
`ceil` adjustment is applied only when `offset < 0`): for `step > 0`,
`offset ≥ 0` and `lower + offset ≤ upper`, the first tick equals
`min(min,max) + offset`.  The spec's concrete example still holds, because
there `interval.min = 0`: `StepTicker(10, 5)` on `[0, 47]` yields exactly
`[5, 15, 25, 35, 45]`. -/
theorem c5_step_first_tick (step offset : ℚ) (r : Range) (hs : 0 < step)
    (ho : 0 ≤ offset) (hle : min r.min r.max + offset ≤ max r.min r.max) :
    (StepTicker.get_ticks step offset r).head? = some (min r.min r.max + offset)
    ∧ StepTicker.get_ticks 10 5 ⟨0, 47⟩ = [5, 15, 25, 35, 45] := by
  constructor
  · simp only [StepTicker.get_ticks]
    rw [if_neg (not_le.mpr hs)]
    rw [if_neg (not_lt.mpr (le_add_of_nonneg_right ho))]
    rw [if_neg (not_lt.mpr hle)]
    rw [List.head?_map]
    simp [List.head?_range]
  · have h1 : ⌊((47:ℚ) - 5) / 10⌋ = 4 := by norm_num [Int.floor_eq_iff]
    have h2 : ⌊(42:ℚ) / 10⌋ = 4 := by norm_num [Int.floor_eq_iff]
    norm_num [StepTicker.get_ticks, h1, h2, List.range_succ,
      show Int.toNat 4 = 4 from rfl]

/-- C5 witness: the amended statement instantiated at `step = 10`,
`offset = 5` and the interval `[0, 47]`. -/
theorem c5_witness :
    (StepTicker.get_ticks 10 5 ⟨0, 47⟩).head? = some (min (0:ℚ) 47 + 5)
    ∧ StepTicker.get_ticks 10 5 ⟨0, 47⟩ = [5, 15, 25, 35, 45] :=
  c5_step_first_tick 10 5 ⟨0, 47⟩ (by norm_num) (by norm_num) (by norm_num)

/-- C6: confirmed — for every interval with `min ≤ max`: `StepTicker` with
positive step, and the two log tickers with base `≥ 2` (the renderer always
uses the default base `10`), produce strictly ascending tick sequences all
of whose values lie in `[interval.min, interval.max]`; `StepTicker` with
`step ≤ 0`, and the log tickers on an interval with `min ≤ 0`, return the
empty sequence rather than failing. -/
theorem c6_ticks_sorted_and_in_range (r : Range) (step offset : ℚ) (base : ℕ)
    (hr : r.min ≤ r.max) :
    (0 < step →
      (StepTicker.get_ticks step offset r).Pairwise (· < ·)
      ∧ ∀ x ∈ StepTicker.get_ticks step offset r, r.min ≤ x ∧ x ≤ r.max)
    ∧ (2 ≤ base →
      (LogMainTicker.get_ticks base r).Pairwise (· < ·)
      ∧ ∀ x ∈ LogMainTicker.get_ticks base r, r.min ≤ x ∧ x ≤ r.max)
    ∧ (2 ≤ base →
      (LogSubTicker.get_ticks base r).Pairwise (· < ·)
      ∧ ∀ x ∈ LogSubTicker.get_ticks base r, r.min ≤ x ∧ x ≤ r.max)
    ∧ (step ≤ 0 → StepTicker.get_ticks step offset r = [])
    ∧ (r.min ≤ 0 → LogMainTicker.get_ticks base r = []
        ∧ LogSubTicker.get_ticks base r = []) := by
  have hmin : min r.min r.max = r.min := min_eq_left hr
  have hmax : max r.min r.max = r.max := max_eq_right hr
  refine ⟨?_, ?_, ?_, ?_, ?_⟩
  · intro hs
    have h := step_get_ticks_sorted_mem step offset r hs
    refine ⟨h.1, fun x hx => ?_⟩
    have hb := h.2 x hx
    rw [hmin, hmax] at hb
    exact hb
  · intro hb
    constructor
    · simp only [LogMainTicker.get_ticks]
      by_cases hg : r.min ≤ 0 ∨ r.max ≤ 0
      · rw [if_pos hg]
        exact List.Pairwise.nil
      · rw [if_neg hg]
        exact List.Pairwise.sublist (List.filter_sublist _)
          (map_zpow_sorted base hb _ _)
    · intro x hx
      simp only [LogMainTicker.get_ticks] at hx
      by_cases hg : r.min ≤ 0 ∨ r.max ≤ 0
      · rw [if_pos hg] at hx
        simp at hx
      · rw [if_neg hg] at hx
        have hb2 := mem_of_mem_filter_bounds hx
        rw [hmin, hmax] at hb2
        exact hb2
  · intro hb
    constructor
    · simp only [LogSubTicker.get_ticks]
      by_cases hg : r.min ≤ 0 ∨ r.max ≤ 0
      · rw [if_pos hg]
        exact List.Pairwise.nil
      · rw [if_neg hg]
        exact List.Pairwise.sublist (List.filter_sublist _)
          (flatMap_zpow_sorted base hb _ _)
    · intro x hx
      simp only [LogSubTicker.get_ticks] at hx
      by_cases hg : r.min ≤ 0 ∨ r.max ≤ 0
      · rw [if_pos hg] at hx
        simp at hx
      · rw [if_neg hg] at hx
        have hb2 := mem_of_mem_filter_bounds hx
        rw [hmin, hmax] at hb2
        exact hb2
  · intro hs
    simp [StepTicker.get_ticks, hs]
  · intro hminle
    exact ⟨by simp [LogMainTicker.get_ticks, hminle],
      by simp [LogSubTicker.get_ticks, hminle]⟩

/-- C6 witness: the statement instantiated at the interval `[1, 100]`,
`step = 10`, `offset = 0`, `base = 10`. -/
theorem c6_witness :
    (0 < (10:ℚ) →
      (StepTicker.get_ticks 10 0 ⟨1, 100⟩).Pairwise (· < ·)
      ∧ ∀ x ∈ StepTicker.get_ticks 10 0 ⟨1, 100⟩, (1:ℚ) ≤ x ∧ x ≤ 100)
    ∧ (2 ≤ 10 →
      (LogMainTicker.get_ticks 10 ⟨1, 100⟩).Pairwise (· < ·)
      ∧ ∀ x ∈ LogMainTicker.get_ticks 10 ⟨1, 100⟩, (1:ℚ) ≤ x ∧ x ≤ 100)
    ∧ (2 ≤ 10 →
      (LogSubTicker.get_ticks 10 ⟨1, 100⟩).Pairwise (· < ·)
      ∧ ∀ x ∈ LogSubTicker.get_ticks 10 ⟨1, 100⟩, (1:ℚ) ≤ x ∧ x ≤ 100)
    ∧ ((10:ℚ) ≤ 0 → StepTicker.get_ticks 10 0 ⟨1, 100⟩ = [])
    ∧ ((1:ℚ) ≤ 0 → LogMainTicker.get_ticks 10 ⟨1, 100⟩ = []
        ∧ LogSubTicker.get_ticks 10 ⟨1, 100⟩ = []) :=
  c6_ticks_sorted_and_in_range ⟨1, 100⟩ 10 0 10 (by norm_num)

/-- C7 counterexample: the legacy plot renderer
(`InkscapeRenderer._render_plot`) does not skip out-of-range points — with
both axes linear over `[0, 10]`, the point `(20, 5)` has `x = 20` outside
the interval, yet one marker is emitted (at the clamped position
`(400, 200)` in a 400×400 plot area) instead of the point being skipped. -/
theorem c7_legacy_renderer_draws_out_of_range_point :
    InkscapeRenderer.render_plot (LinearNormalizer.normalize ⟨0, 10⟩)
        (LinearNormalizer.normalize ⟨0, 10⟩) [(20, 5)] 400 400 = some [(400, 200)]
    ∧ ¬ ((0:ℚ) ≤ 20 ∧ (20:ℚ) ≤ 10) := by
  constructor
  · have hx : LinearNormalizer.normalize ⟨0, 10⟩ 20 = some 1 := by
      norm_num [LinearNormalizer.normalize]
    have hy : LinearNormalizer.normalize ⟨0, 10⟩ 5 = some (1/2) := by
      norm_num [LinearNormalizer.normalize]
    simp [InkscapeRenderer.render_plot, optionMapList, hx, hy]
    norm_num
  · norm_num

/-- C7 (amended): of the two plot renderers in the repository, the new-model
`PlotsRenderer.render` behaves as claimed — it silently skips every point
whose `x` or `y` value falls outside the corresponding axis interval and
emits exactly one marker per retained point, at the normalized, mapped
coordinates; the legacy `InkscapeRenderer._render_plot` performs no
filtering at all — whenever it succeeds, it emits exactly one marker per
series point, out-of-range points included. -/
theorem c7_plot_skip_behaviour (x_axis y_axis : Axis) (points : List (ℚ × ℚ))
    (w h : ℚ) (tx ty : ℚ → Option ℚ) :
    PlotsRenderer.render x_axis y_axis points w h =
      (points.filter (fun p => x_axis.interval.contains p.1
          && y_axis.interval.contains p.2)).map
        (fun p => (GraphRoot.map_x w (x_axis.normalize p.1),
          GraphRoot.map_y h (y_axis.normalize p.2)))
    ∧ ∀ ms, InkscapeRenderer.render_plot tx ty points w h = some ms →
        ms.length = points.length := by
  constructor
  · exact filterMap_if_eq_map_filter _ _ points
  · intro ms hms
    exact optionMapList_length _ points ms hms

/-- C7 witness: the amended statement instantiated at linear `[0, 100]`
axes, the single point `(50, 50)`, a 400×400 plot area, and identity-like
transforms for the legacy renderer. -/
theorem c7_witness :
    PlotsRenderer.render ⟨⟨0, 100⟩, LinearScale.normalize⟩
        ⟨⟨0, 100⟩, LinearScale.normalize⟩ [((50:ℚ), 50)] 400 400 =
      (([((50:ℚ), 50)].filter (fun p =>
          (Interval.mk 0 100).contains p.1 && (Interval.mk 0 100).contains p.2)).map
        (fun p => (GraphRoot.map_x 400
            ((Axis.mk ⟨0, 100⟩ LinearScale.normalize).normalize p.1),
          GraphRoot.map_y 400
            ((Axis.mk ⟨0, 100⟩ LinearScale.normalize).normalize p.2))))
    ∧ ∀ ms, InkscapeRenderer.render_plot (fun q => some q) (fun q => some q)
        [((50:ℚ), 50)] 400 400 = some ms → ms.length = [((50:ℚ), 50)].length :=
  c7_plot_skip_behaviour ⟨⟨0, 100⟩, LinearScale.normalize⟩
    ⟨⟨0, 100⟩, LinearScale.normalize⟩ [((50:ℚ), 50)] 400 400
    (fun q => some q) (fun q => some q)

/-- C8: confirmed — `ScientificFormatter` with precision `0` formats `250`
as `"2×10^2"` (the mantissa `2.5` rounds half-to-even to `2`), formats `100`
as `"10^2"` (the mantissa factor is omitted when the mantissa equals `1`),
and formats `0` as `"0"`. -/
theorem c8_scientific_formats :
    ScientificFormatter.format 0 250 = "2×10^2"
    ∧ ScientificFormatter.format 0 100 = "10^2"
    ∧ ScientificFormatter.format 0 0 = "0" := by
  have hcast250 : ((250:ℕ):ℚ) = |(250:ℚ)| := by norm_num
  have hlog250 : Int.log 10 |(250:ℚ)| = 2 := by
    rw [← hcast250, Int.log_natCast]
    exact_mod_cast Nat.log_eq_of_pow_le_of_lt_pow (by norm_num) (by norm_num)
  have hcast100 : ((100:ℕ):ℚ) = |(100:ℚ)| := by norm_num
  have hlog100 : Int.log 10 |(100:ℚ)| = 2 := by
    rw [← hcast100, Int.log_natCast]
    exact_mod_cast Nat.log_eq_of_pow_le_of_lt_pow (by norm_num) (by norm_num)
  have hzp : ((10:ℚ) ^ (2:ℤ)) = 100 := by norm_num
  have hf : ⌊(5:ℚ)/2⌋ = 2 := by norm_num [Int.floor_eq_iff]
  have hrhe : roundHalfEven ((5:ℚ)/2) = 2 := by
    norm_num [roundHalfEven, hf]
  have habs2 : |(5:ℚ)/2| = (5:ℚ)/2 := abs_of_pos (by norm_num)
  have hff : formatFixed 0 ((5:ℚ)/2) = "2" := by
    norm_num [formatFixed, habs2, hrhe]
    decide
  refine ⟨?_, ?_, ?_⟩
  · simp only [ScientificFormatter.format, hlog250]
    rw [if_neg (by norm_num), hzp]
    norm_num [hff, strTimesTenCaret]
    decide
  · simp only [ScientificFormatter.format, hlog100]
    rw [if_neg (by norm_num), hzp]
    norm_num [strTenCaret]
    decide
  · simp [ScientificFormatter.format, strZero]

/-- C9: confirmed — with both axes the linear interval `[0, 100]`, the
single series point `(50, 50)`, and a 400×400 plot area, the new-model plot
renderer places the marker centre at `(200, 200)`; the y coordinate is
inverted (`map_y = (1 - norm) * height`) so larger data values plot
higher. -/
theorem c9_marker_at_center :
    PlotsRenderer.render ⟨⟨0, 100⟩, LinearScale.normalize⟩
      ⟨⟨0, 100⟩, LinearScale.normalize⟩ [((50:ℚ), 50)] 400 400
      = [((200:ℚ), 200)] := by
  norm_num [PlotsRenderer.render, Interval.contains, Axis.normalize,
    LinearScale.normalize, GraphRoot.map_x, GraphRoot.map_y,
    List.filterMap_cons]

/-- C10: confirmed — for every range with `min ≠ max` and every value,
`LinearNormalizer.normalize` clamps the value into the range and returns a
result within `[0, 1]`; it raises (`none`) exactly when `min == max`. -/
theorem c10_linear_clamps_into_unit (r : Range) (v : ℚ) :
    (r.min ≠ r.max →
      ∃ q, LinearNormalizer.normalize r v = some q
        ∧ q = (max (min r.min r.max) (min v (max r.min r.max)) - r.min) /
            (r.max - r.min)
        ∧ 0 ≤ q ∧ q ≤ 1)
    ∧ (r.min = r.max → LinearNormalizer.normalize r v = none) := by
  constructor
  · intro h
    refine ⟨_, LinearNormalizer.normalize_eq r v (Ne.symm h), rfl, ?_⟩
    exact lin_clamp_unit r v h
  · intro h
    simp [LinearNormalizer.normalize, h.symm]

/-- C10 witness: the statement instantiated at the range `[0, 10]` and the
out-of-range value `20`. -/
theorem c10_witness :
    ((0:ℚ) ≠ 10 →
      ∃ q, LinearNormalizer.normalize ⟨0, 10⟩ 20 = some q
        ∧ q = (max (min (0:ℚ) 10) (min 20 (max (0:ℚ) 10)) - 0) / (10 - 0)
        ∧ 0 ≤ q ∧ q ≤ 1)
    ∧ ((0:ℚ) = 10 → LinearNormalizer.normalize ⟨0, 10⟩ 20 = none) :=
  c10_linear_clamps_into_unit ⟨0, 10⟩ 20

end InkscapePlot
